import Mathlib

/-!
Verification of `bricks/_common/manifest.py`, the build-manifest script of
this repository.  The script is evaluated by the MicroPython manifest tool
with the host-provided directives `include` and `freeze_as_mpy` in scope:

  include("./modules/uasyncio")
  modules = list(pathlib.Path("./modules").glob("*.py"))
  if any(modules):
      for m in modules:
          print(f"INCLUDING {m} as a module.")
          path, file = m.parts
          print(f"Including {m.stem} as a module.")
          freeze_as_mpy(path, file)

The embedding models the filesystem state the script can observe (the
directory `./modules`, possibly missing), the semantics of the CPython
`pathlib` operations the script calls, and the script itself as a pure
function from that state to a trace of externally visible events together
with an optional uncaught error.
-/

namespace PybricksManifest

/-- A node of the modelled filesystem: an entry of a directory, carrying its
name and, for files, their contents, and, for directories, their children.
Contents and children are part of the model so that theorems can show the
script never depends on them. -/
inductive FsNode where
  | file (name : String) (contents : String)
  | dir (name : String) (children : List FsNode)

/-- The name of a directory entry. -/
def FsNode.name : FsNode → String
  | .file n _ => n
  | .dir n _ => n

/-- The observable state of the directory `./modules`: `none` when the
directory does not exist, otherwise the list of its immediate entries in
the order the operating system enumerates them. -/
abbrev ModulesDir := Option (List FsNode)

/-- The externally visible actions a manifest script can perform: the
`include` directive, a line written to standard output by `print`, the
`freeze_as_mpy` registration call, and a filesystem write.  `fsWrite` is
part of the alphabet only so that frame conditions are statable; the
theorems show the manifest never emits one. -/
inductive Event where
  | includeCall (path : String)
  | printLine (line : String)
  | freezeAsMpy (dir : String) (file : String)
  | fsWrite (path : String) (contents : String)
deriving DecidableEq

/-- Is the event a `freeze_as_mpy` registration call? -/
def Event.isFreeze : Event → Bool
  | .freezeAsMpy _ _ => true
  | _ => false

/-- Is the event an `include` directive? -/
def Event.isIncludeCall : Event → Bool
  | .includeCall _ => true
  | _ => false

/-- An uncaught Python exception aborting the script.  The only one the
script can raise is the `ValueError` of the tuple unpacking
`path, file = m.parts` when the number of parts is not exactly two
(`pathlib.glob` on a missing directory raises nothing, see
`globModulesPy`). -/
inductive ManifestError where
  | unpackValueError (got : Nat)
deriving DecidableEq

/-- The fixed argument of the `include` directive on line 6 of the source. -/
def includeTarget : String := "./modules/uasyncio"

/-- fnmatch semantics of the fixed pattern `"*.py"` against one path
component: `fnmatch.translate("*.py")` yields the regular expression
`(?s:.*\.py)\Z`, i.e. any name ending in `.py`.  CPython `pathlib.Path.glob`
applies it to every entry name, with no exclusion of hidden files and no
check of the entry type (files and directories alike are matched). -/
def globMatchesPy (name : String) : Bool :=
  match name.toList.reverse with
  | 'y' :: 'p' :: '.' :: _ => true
  | _ => false

/-- `str()` of a relative `pathlib` path given by its parts: the components
joined by `/`, and `"."` for the empty path. -/
def pathStr : List String → String
  | [] => "."
  | ps => String.intercalate "/" ps

/-- The index of the last `.` in a list of characters, if any. -/
def lastDotIdx (cs : List Char) : Option Nat :=
  ((List.range cs.length).filter (fun i => cs.getD i ' ' == '.')).getLast?

/-- CPython `PurePath.stem` of a final path component: the name with its
suffix removed, where the suffix is `name[i:]` for `i` the index of the
last dot provided `0 < i < len(name) - 1`, and empty otherwise (so a name
such as `.py` keeps its leading dot and is its own stem). -/
def pyStem (name : String) : String :=
  let cs := name.toList
  match lastDotIdx cs with
  | some i => if 0 < i && i + 1 < cs.length then String.mk (cs.take i) else name
  | none => name

/-- CPython `PurePath.stem` of a path given by its parts: the stem of the
final component (`""` for the empty path, whose `.name` is `""`). -/
def pathStemOf (m : List String) : String :=
  pyStem (m.getLastD "")

/-- `list(pathlib.Path("./modules").glob("*.py"))`, line 8 of the source.
`Path("./modules")` normalises to parts `("modules",)`, so every match is a
path with parts `("modules", name)`.  The glob is non-recursive: it
enumerates only the immediate entries of `./modules`, keeps those whose
name matches `*.py` (whether file or directory), in enumeration order.
When `./modules` does not exist, CPython raises nothing: the selector
(`pathlib._Selector.select_from`) returns an empty iterator whenever the
base is not a directory, so the result is the empty list. -/
def globModulesPy : ModulesDir → List (List String)
  | none => []
  | some entries =>
      (entries.filter fun e => globMatchesPy e.name).map fun e => ["modules", e.name]

/-- The body of the `for m in modules` loop, lines 12-15 of the source, for
one candidate `m` (given by its parts): print the first diagnostic line,
unpack `path, file = m.parts` (a `ValueError` when the number of parts is
not exactly two, raised after the first print and before the second), print
the second diagnostic line, call `freeze_as_mpy(path, file)`.  Returns the
events emitted and the uncaught error, if any. -/
def processModule (m : List String) : List Event × Option ManifestError :=
  let first := Event.printLine ("INCLUDING " ++ pathStr m ++ " as a module.")
  match m with
  | [path, file] =>
      ([first,
        Event.printLine ("Including " ++ pathStemOf [path, file] ++ " as a module."),
        Event.freezeAsMpy path file], none)
  | _ => ([first], some (ManifestError.unpackValueError m.length))

/-- The `for m in modules` loop: process the candidates in order, stopping
at the first uncaught error (a raised exception aborts the whole script;
later candidates are not processed). -/
def runLoop : List (List String) → List Event × Option ManifestError
  | [] => ([], none)
  | m :: ms =>
      let r := processModule m
      match r.2 with
      | some e => (r.1, some e)
      | none =>
          let rest := runLoop ms
          (r.1 ++ rest.1, rest.2)

/-- The whole script, lines 6-15 of the source: the unconditional `include`
directive, then the glob, then — guarded by `if any(modules)` (every
`pathlib.Path` is truthy, so `any(modules)` is mere non-emptiness) — the
loop over the candidates. -/
def runManifest (fs : ModulesDir) : List Event × Option ManifestError :=
  let modules := globModulesPy fs
  if modules.any fun _ => true then
    let r := runLoop modules
    (Event.includeCall includeTarget :: r.1, r.2)
  else
    ([Event.includeCall includeTarget], none)

/-- The same script with the guard `if any(modules)` removed and the loop
run unconditionally (the variant claim C9 compares against). -/
def runManifestNoGuard (fs : ModulesDir) : List Event × Option ManifestError :=
  let r := runLoop (globModulesPy fs)
  (Event.includeCall includeTarget :: r.1, r.2)

/-- The events the script emits for one matched candidate named `name`
(parts `("modules", name)`): the two diagnostic lines, then the
registration call. -/
def moduleEvents (name : String) : List Event :=
  [Event.printLine ("INCLUDING " ++ pathStr ["modules", name] ++ " as a module."),
   Event.printLine ("Including " ++ pyStem name ++ " as a module."),
   Event.freezeAsMpy "modules" name]

/-- The entry names of the observable state of `./modules`, i.e. exactly
what a directory listing reveals: no file contents, no entry kinds, no
nested trees. -/
def namesOf (fs : ModulesDir) : Option (List String) :=
  fs.map fun entries => entries.map FsNode.name

/-! ## Characterisation lemmas -/

/-- The loop body on a two-part candidate: first diagnostic line, second
diagnostic line with the stem, registration call, no error. -/
lemma processModule_pair (p f : String) :
    processModule [p, f] =
      ([Event.printLine ("INCLUDING " ++ pathStr [p, f] ++ " as a module."),
        Event.printLine ("Including " ++ pyStem f ++ " as a module."),
        Event.freezeAsMpy p f], none) := rfl

/-- The loop over candidates with parts `("modules", n)` emits the three
events of each candidate in order and raises nothing. -/
lemma runLoop_names (ns : List String) :
    runLoop (ns.map fun n => ["modules", n]) = (ns.flatMap moduleEvents, none) := by
  induction ns with
  | nil => rfl
  | cons n ns ih =>
      simp only [List.map_cons, runLoop, processModule_pair, List.flatMap_cons, ih,
        moduleEvents]

/-- The glob result is determined by the entry names alone: filter the
names by the pattern, then form the two-part paths. -/
lemma glob_names (entries : List FsNode) :
    globModulesPy (some entries) =
      ((entries.map FsNode.name).filter globMatchesPy).map fun n => ["modules", n] := by
  induction entries with
  | nil => rfl
  | cons e es ih =>
      simp only [globModulesPy] at ih
      cases h : globMatchesPy e.name <;>
        simp [globModulesPy, List.filter_cons, h, ih]

/-- Full characterisation of a run on an existing directory: the include
directive followed by the three events of each matched entry in
enumeration order, and no uncaught error. -/
lemma runManifest_some (entries : List FsNode) :
    runManifest (some entries) =
      (Event.includeCall includeTarget ::
        ((entries.map FsNode.name).filter globMatchesPy).flatMap moduleEvents,
       none) := by
  unfold runManifest
  rw [glob_names entries]
  cases h : (entries.map FsNode.name).filter globMatchesPy with
  | nil => simp [runLoop]
  | cons n ns =>
      have hr := runLoop_names (n :: ns)
      simp only [List.map_cons] at hr
      simp [hr]

/-- A run on a missing directory: only the include directive, no error. -/
lemma runManifest_none :
    runManifest none = ([Event.includeCall includeTarget], none) := rfl

/-- Among the events of one matched candidate, exactly one is a
registration call, namely its own. -/
lemma filter_flatMap_freeze (ns : List String) :
    (ns.flatMap moduleEvents).filter Event.isFreeze =
      ns.map fun n => Event.freezeAsMpy "modules" n := by
  induction ns with
  | nil => rfl
  | cons n ns ih =>
      simp [moduleEvents, List.filter_cons, Event.isFreeze, ih]

/-- No event of a matched candidate is an include directive. -/
lemma filter_flatMap_includeCall (ns : List String) :
    (ns.flatMap moduleEvents).filter Event.isIncludeCall = [] := by
  induction ns with
  | nil => rfl
  | cons n ns ih =>
      simp [moduleEvents, List.filter_cons, Event.isIncludeCall, ih]

/-- Filtering the mapped names matches filtering the entries by name. -/
lemma length_filter_names (entries : List FsNode) :
    (List.filter globMatchesPy (entries.map FsNode.name)).length =
      (entries.filter fun e => globMatchesPy e.name).length := by
  induction entries with
  | nil => rfl
  | cons e es ih =>
      cases h : globMatchesPy e.name <;>
        simp [List.filter_cons, h, ih]

/-! ## Claims -/

/-- C1: for a directory `./modules` whose entries contain `N` names
matching the pattern `*.py`, the run emits exactly `N` `freeze_as_mpy`
registration calls, plus exactly one `include` call, for the fixed path
`./modules/uasyncio`. -/
theorem c1_call_counts (entries : List FsNode) :
    ((runManifest (some entries)).1.filter Event.isFreeze).length =
        ((entries.map FsNode.name).filter globMatchesPy).length ∧
      (runManifest (some entries)).1.filter Event.isIncludeCall =
        [Event.includeCall "./modules/uasyncio"] := by
  rw [runManifest_some]
  constructor
  · simp [List.filter_cons, Event.isFreeze, filter_flatMap_freeze]
  · simp [List.filter_cons, Event.isIncludeCall, filter_flatMap_includeCall,
      includeTarget]

/-- C2: whenever the scan yields no candidate the run consists of the
single fixed `include` call and nothing else, with no error; and in every
run, over any directory state, the `include` call is the first event
emitted, before any result of the scan. -/
theorem c2_empty_scan_only_include :
    (∀ fs : ModulesDir, globModulesPy fs = [] →
        runManifest fs = ([Event.includeCall includeTarget], none)) ∧
      ∀ fs : ModulesDir,
        (runManifest fs).1.head? = some (Event.includeCall includeTarget) := by
  constructor
  · intro fs h
    unfold runManifest
    rw [h]
    rfl
  · intro fs
    cases fs with
    | none => rfl
    | some entries => rw [runManifest_some]; rfl

/-- Witness for C2 at a directory whose only entry does not match
`*.py`. -/
theorem c2_witness :
    runManifest (some [FsNode.file "readme.txt" "hi"]) =
      ([Event.includeCall includeTarget], none) :=
  c2_empty_scan_only_include.1 (some [FsNode.file "readme.txt" "hi"]) (by decide)

/-- C3: every `freeze_as_mpy` call of a run receives as first argument the
head part of the matched candidate path — the matched file's immediate
parent directory name — and as second argument the candidate's final part,
the file's name including its extension; one call per candidate, in
order. -/
theorem c3_freeze_arguments (entries : List FsNode) :
    (runManifest (some entries)).1.filter Event.isFreeze =
      (globModulesPy (some entries)).map fun m =>
        Event.freezeAsMpy (m.headD "") (m.getLastD "") := by
  rw [runManifest_some, glob_names]
  simp [List.filter_cons, Event.isFreeze, filter_flatMap_freeze, List.map_map,
    Function.comp]

/-- C4: the loop body on a candidate whose number of path parts is not
exactly two raises the `ValueError` of the tuple unpacking
`path, file = m.parts`: it emits no `freeze_as_mpy` call for that
candidate, and the loop aborts there — later candidates are not processed
(no silent truncation of the parts). -/
theorem c4_unpack_abort (m : List String) (h : m.length ≠ 2) :
    (processModule m).2 = some (ManifestError.unpackValueError m.length) ∧
      (∀ d f, Event.freezeAsMpy d f ∉ (processModule m).1) ∧
      ∀ ms, runLoop (m :: ms) =
        ((processModule m).1, some (ManifestError.unpackValueError m.length)) := by
  match m with
  | [] =>
      refine ⟨rfl, ?_, fun ms => rfl⟩
      intro d f
      simp [processModule]
  | [a] =>
      refine ⟨rfl, ?_, fun ms => rfl⟩
      intro d f
      simp [processModule]
  | [a, b] => exact absurd rfl h
  | a :: b :: c :: rest =>
      refine ⟨rfl, ?_, fun ms => rfl⟩
      intro d f
      simp [processModule]

/-- Witness for C4 at a three-part candidate path. -/
theorem c4_witness :
    (processModule ["modules", "sub", "x.py"]).2 =
        some (ManifestError.unpackValueError 3) ∧
      Event.freezeAsMpy "modules" "x.py" ∉ (processModule ["modules", "sub", "x.py"]).1 :=
  ⟨(c4_unpack_abort ["modules", "sub", "x.py"] (by decide)).1,
   (c4_unpack_abort ["modules", "sub", "x.py"] (by decide)).2.1 "modules" "x.py"⟩

/-- C5 counterexample: on the concrete input where `./modules` is missing,
the run completes normally — only the include call, error component
`none` — so no filesystem error propagates and nothing aborts, contrary to
the claim. -/
theorem c5_counterexample :
    runManifest none = ([Event.includeCall includeTarget], none) := rfl

/-- C5 amended: if the fixed directory `./modules` is missing, no error is
raised: CPython's `pathlib` glob silently yields the empty candidate list
(its selector returns an empty iterator whenever the base is not a
directory), so the run is indistinguishable from the empty-directory case
and completes normally with only the `include` call. -/
theorem c5_missing_dir_amended :
    runManifest none = runManifest (some []) ∧
      runManifest none = ([Event.includeCall includeTarget], none) :=
  ⟨rfl, rfl⟩

/-- C6 counterexample: a directory entry of `./modules` named `sub.py` — a
directory, not a file — is matched by the glob and registered by
`freeze_as_mpy`, contrary to the claim that every registered candidate is
a file. -/
theorem c6_counterexample :
    Event.freezeAsMpy "modules" "sub.py" ∈
      (runManifest (some [FsNode.dir "sub.py" [FsNode.file "c.py" ""]])).1 := by
  decide

/-- C6 amended: the scan emits one registration call per immediate child
entry of `./modules` — file or directory alike, the glob does not check
the entry type — whose name matches `*.py`; every registered candidate has
parent `modules` and a name drawn from the immediate entries, so entries
of nested subdirectories are never registered. -/
theorem c6_scan_amended (entries : List FsNode) :
    ((runManifest (some entries)).1.filter Event.isFreeze).length =
        ((entries.filter fun e => globMatchesPy e.name).length) ∧
      ∀ d f, Event.freezeAsMpy d f ∈ (runManifest (some entries)).1 →
        d = "modules" ∧ globMatchesPy f = true ∧ f ∈ entries.map FsNode.name := by
  rw [runManifest_some]
  constructor
  · simp only [List.filter_cons, Event.isFreeze, filter_flatMap_freeze]
    simp [length_filter_names]
  · intro d f hmem
    rcases List.mem_cons.1 hmem with h | h
    · cases h
    · rcases List.mem_flatMap.1 h with ⟨n, hn, he⟩
      have hn' := List.mem_filter.1 hn
      simp only [moduleEvents, List.mem_cons, List.mem_singleton] at he
      rcases he with h1 | h1 | h1 | h1
      · cases h1
      · cases h1
      · cases h1
        exact ⟨rfl, hn'.2, hn'.1⟩
      · cases h1

/-- Witness for C6 at a directory entry named like a Python file. -/
theorem c6_witness :
    ("modules" : String) = "modules" ∧ globMatchesPy "sub.py" = true ∧
      "sub.py" ∈ [FsNode.dir "sub.py" []].map FsNode.name :=
  (c6_scan_amended [FsNode.dir "sub.py" []]).2 "modules" "sub.py" (by decide)

/-- C7: on a directory `modules/` holding exactly `a.py` and `b.py`, the
run is the include call for the fixed nested path first, then for each
candidate its two diagnostic lines and its registration call with
arguments `("modules", "a.py")` and `("modules", "b.py")`, in the order
the enumeration returns the entries — swapping the enumeration order swaps
the emission order. -/
theorem c7_scenario :
    runManifest (some [FsNode.file "a.py" "", FsNode.file "b.py" ""]) =
      ([Event.includeCall "./modules/uasyncio",
        Event.printLine "INCLUDING modules/a.py as a module.",
        Event.printLine "Including a as a module.",
        Event.freezeAsMpy "modules" "a.py",
        Event.printLine "INCLUDING modules/b.py as a module.",
        Event.printLine "Including b as a module.",
        Event.freezeAsMpy "modules" "b.py"], none) ∧
      runManifest (some [FsNode.file "b.py" "", FsNode.file "a.py" ""]) =
      ([Event.includeCall "./modules/uasyncio",
        Event.printLine "INCLUDING modules/b.py as a module.",
        Event.printLine "Including b as a module.",
        Event.freezeAsMpy "modules" "b.py",
        Event.printLine "INCLUDING modules/a.py as a module.",
        Event.printLine "Including a as a module.",
        Event.freezeAsMpy "modules" "a.py"], none) :=
  ⟨by decide, by decide⟩

/-- C8: the run is a function of the directory listing alone — two states
of `./modules` with the same entry names, differing arbitrarily in file
contents, entry kinds and nested trees, produce identical runs, so the
script never reads file contents — and no run ever emits a filesystem
write: the filesystem state is left unchanged. -/
theorem c8_frame :
    (∀ fs₁ fs₂ : ModulesDir, namesOf fs₁ = namesOf fs₂ →
        runManifest fs₁ = runManifest fs₂) ∧
      ∀ (fs : ModulesDir) (p c : String),
        Event.fsWrite p c ∉ (runManifest fs).1 := by
  constructor
  · intro fs₁ fs₂ h
    cases fs₁ with
    | none =>
        cases fs₂ with
        | none => rfl
        | some e₂ => simp [namesOf] at h
    | some e₁ =>
        cases fs₂ with
        | none => simp [namesOf] at h
        | some e₂ =>
            have h' : e₁.map FsNode.name = e₂.map FsNode.name := by
              simpa [namesOf] using h
            rw [runManifest_some, runManifest_some, h']
  · intro fs p c hmem
    have htr : Event.fsWrite p c ∈ (runManifest fs).1 → False := by
      cases fs with
      | none =>
          rw [runManifest_none]
          intro hx
          simp at hx
      | some entries =>
          rw [runManifest_some]
          intro hx
          rcases List.mem_cons.1 hx with h | h
          · cases h
          · rcases List.mem_flatMap.1 h with ⟨n, _, he⟩
            simp [moduleEvents] at he
    exact htr hmem

/-- Witness for C8: same entry names, different contents, kinds and
nested trees — identical runs. -/
theorem c8_witness :
    runManifest (some [FsNode.file "a.py" "one", FsNode.dir "x" []]) =
      runManifest (some [FsNode.dir "a.py" [FsNode.file "z.py" ""],
        FsNode.file "x" "two"]) :=
  c8_frame.1 (some [FsNode.file "a.py" "one", FsNode.dir "x" []])
    (some [FsNode.dir "a.py" [FsNode.file "z.py" ""], FsNode.file "x" "two"])
    (by decide)

/-- C9: the guard `if any(modules)` is redundant — over every directory
state, the guarded script and the variant with the guard removed and the
loop run unconditionally emit the same events and the same error, because
iterating an empty candidate list emits nothing. -/
theorem c9_guard_redundant :
    ∀ fs : ModulesDir, runManifest fs = runManifestNoGuard fs := by
  intro fs
  unfold runManifest runManifestNoGuard
  cases h : globModulesPy fs with
  | nil => rfl
  | cons m ms => rfl

/-- C10: a run over an existing directory is the include call followed,
for each matched candidate in order, by exactly its two diagnostic lines —
`INCLUDING {m} as a module.` with the full path, then
`Including {m.stem} as a module.` with the stem — immediately before its
registration call; and when no candidate matches, no line is printed at
all. -/
theorem c10_diagnostics (entries : List FsNode) :
    (runManifest (some entries)).1 =
      Event.includeCall includeTarget ::
        ((entries.map FsNode.name).filter globMatchesPy).flatMap moduleEvents ∧
      (((entries.map FsNode.name).filter globMatchesPy) = [] →
        ∀ s, Event.printLine s ∉ (runManifest (some entries)).1) := by
  constructor
  · rw [runManifest_some]
  · intro h s
    rw [runManifest_some, h]
    simp

/-- Witness for C10 at a directory with no matching entry. -/
theorem c10_witness :
    Event.printLine "x" ∉ (runManifest (some [FsNode.file "notes.txt" ""])).1 :=
  (c10_diagnostics [FsNode.file "notes.txt" ""]).2 (by decide) "x"

end PybricksManifest
